import Mathlib

/-! The `cpp_loop` accumulation loop of `presentation.cpp`.

Source under study (`src/extra files/presentation.cpp`):

    void cpp_loop(long long& sum) {
        for (int i = 0; i < 1000000; ++i) {
            sum += i;
        }
    }

The embedding is a small machine whose state holds the counter `i` (a 32-bit
signed `int`), the accumulator `sum` (a 64-bit signed `long long`) and a ghost
log of every executed `sum += i`.  Machine integers are `Int` values reduced
explicitly to their two's-complement range after each arithmetic operation;
the log keeps the operands of each addition, so that the exact (unreduced)
result of every addition can be compared with the range of the type.
-/

namespace Presentation

/-! ## Machine integers -/

/-- Smallest value of a 64-bit signed `long long`, `-2^63`. -/
def LLONG_MIN : Int := -9223372036854775808

/-- Largest value of a 64-bit signed `long long`, `2^63 - 1`. -/
def LLONG_MAX : Int := 9223372036854775807

/-- Smallest value of a 32-bit signed `int`, `-2^31`. -/
def INT_MIN : Int := -2147483648

/-- Largest value of a 32-bit signed `int`, `2^31 - 1`. -/
def INT_MAX : Int := 2147483647

/-- Two's-complement reduction of an exact integer to a 64-bit signed value
(`2^63 = 9223372036854775808`, `2^64 = 18446744073709551616`). -/
def wrapLL (x : Int) : Int :=
  (x + 9223372036854775808) % 18446744073709551616 - 9223372036854775808

/-- Two's-complement reduction of an exact integer to a 32-bit signed value
(`2^31 = 2147483648`, `2^32 = 4294967296`). -/
def wrapInt (x : Int) : Int :=
  (x + 2147483648) % 4294967296 - 2147483648

/-! ## The loop -/

/-- One executed `sum += i`: the accumulator value read and the value added. -/
structure Addition where
  /-- Value of `sum` just before the addition. -/
  acc : Int
  /-- Value of `i` that is added. -/
  addend : Int
deriving DecidableEq, Repr

/-- Exact mathematical result of the addition, before any reduction to 64 bits. -/
def Addition.exact (a : Addition) : Int := a.acc + a.addend

/-- The exact result lies above the largest `long long`. -/
def Addition.overflowsUp (a : Addition) : Bool := decide (LLONG_MAX < a.exact)

/-- The exact result lies below the smallest `long long`. -/
def Addition.overflowsDown (a : Addition) : Bool := decide (a.exact < LLONG_MIN)

/-- The exact result of the addition is not a `long long` value. -/
def Addition.overflows (a : Addition) : Bool := a.overflowsUp || a.overflowsDown

/-- State of the loop: the counter `i`, the referenced accumulator `sum`, and
the ghost log of the additions executed so far, oldest first. -/
structure LoopState where
  /-- The loop counter `int i`. -/
  i : Int
  /-- The referenced `long long& sum`. -/
  sum : Int
  /-- Ghost: every `sum += i` executed so far, in execution order. -/
  log : List Addition
deriving DecidableEq, Repr

/-- One trip through the loop: the body `sum += i;` followed by `++i`. -/
def loopBody (s : LoopState) : LoopState :=
  ⟨wrapInt (s.i + 1), wrapLL (s.sum + s.i), s.log ++ [⟨s.sum, s.i⟩]⟩

/-- One step of the loop `for (...; i < bound; ++i) sum += i;`: when the
condition holds the body and the increment run, otherwise the state stays. -/
def loopStep (bound : Int) (s : LoopState) : LoopState :=
  if s.i < bound then loopBody s else s

/-- State reached after the first `k` trips of the loop (once the condition
fails the state no longer changes). -/
def stateAfter (bound : Int) (k : Nat) (s : LoopState) : LoopState :=
  (loopStep bound)^[k] s

/-- The loop `for (...; i < bound; ++i) sum += i;` run from state `s`.  Each
evaluation of the loop condition consumes one unit of `fuel`; the result is
`none` when the fuel runs out before the condition fails. -/
def forLoop (bound : Int) : Nat → LoopState → Option LoopState
  | 0, _ => none
  | fuel + 1, s => if s.i < bound then forLoop bound fuel (loopBody s) else some s

/-- State at function entry: `int i = 0`, the caller's accumulator, empty log. -/
def entry (sum : Int) : LoopState := ⟨0, sum, []⟩

/-- Run of `cpp_loop` on an accumulator holding `sum`: the final loop state. -/
def cpp_loop_run (fuel : Nat) (sum : Int) : Option LoopState :=
  forLoop 1000000 fuel (entry sum)

/-- The function `cpp_loop`: maps the accumulator value at call entry to its
value on return. -/
def cpp_loop (fuel : Nat) (sum : Int) : Option Int :=
  (cpp_loop_run fuel sum).map LoopState.sum

/-- The accumulator after `k` calls of `cpp_loop` in sequence. -/
def cpp_loop_times (fuel : Nat) : Nat → Int → Option Int
  | 0, sum => some sum
  | k + 1, sum => (cpp_loop_times fuel k sum).bind (cpp_loop fuel)

/-- The values added to the accumulator, in execution order. -/
def addends (s : LoopState) : List Int := s.log.map Addition.addend

/-! ## Closed forms used by the specification -/

/-- Sum of all integers in `[0, n)`. -/
def sumBelow : Nat → Int
  | 0 => 0
  | n + 1 => sumBelow n + n

/-- The closed form `n(n-1)/2` for the sum of `0..n-1`. -/
def closedForm (n : Int) : Int := n * (n - 1) / 2

/-- Loop state after `k` trips from entry value `v`, written in closed form. -/
def tripState (v : Int) (k : Nat) : LoopState :=
  ⟨k, wrapLL (v + sumBelow k),
    (List.range k).map (fun j => (⟨wrapLL (v + sumBelow j), (j : Int)⟩ : Addition))⟩

/-! ## Small concrete runs -/

example : forLoop 4 5 (entry 10) = some ⟨4, 16, [⟨10, 0⟩, ⟨10, 1⟩, ⟨11, 2⟩, ⟨13, 3⟩]⟩ := by
  decide

example : forLoop 4 4 (entry 10) = none := by decide

example : stateAfter 4 2 (entry 10) = ⟨2, 11, [⟨10, 0⟩, ⟨10, 1⟩]⟩ := by decide

example : (forLoop 3 9 (entry LLONG_MAX)).map LoopState.sum = some (LLONG_MIN + 2) := by
  decide

/-! ## Arithmetic of the reductions -/

theorem wrapLL_of_range {x : Int} (h1 : LLONG_MIN ≤ x) (h2 : x ≤ LLONG_MAX) : wrapLL x = x := by
  unfold wrapLL; unfold LLONG_MIN at h1; unfold LLONG_MAX at h2; omega

theorem wrapLL_range (x : Int) : LLONG_MIN ≤ wrapLL x ∧ wrapLL x ≤ LLONG_MAX := by
  unfold wrapLL LLONG_MIN LLONG_MAX; omega

theorem wrapLL_add_left (x y : Int) : wrapLL (wrapLL x + y) = wrapLL (x + y) := by
  unfold wrapLL; omega

theorem wrapInt_of_range {x : Int} (h1 : INT_MIN ≤ x) (h2 : x ≤ INT_MAX) : wrapInt x = x := by
  unfold wrapInt; unfold INT_MIN at h1; unfold INT_MAX at h2; omega

theorem sumBelow_nonneg (k : Nat) : 0 ≤ sumBelow k := by
  induction k with
  | zero => simp [sumBelow]
  | succ n ih => simp only [sumBelow]; omega

theorem two_mul_sumBelow (k : Nat) : 2 * sumBelow k = (k : Int) * ((k : Int) - 1) := by
  induction k with
  | zero => simp [sumBelow]
  | succ n ih =>
    simp only [sumBelow]
    push_cast
    linarith

theorem sumBelow_eq_closedForm (k : Nat) : sumBelow k = closedForm k := by
  unfold closedForm
  rw [← two_mul_sumBelow]
  simp

theorem sumBelow_mono {j k : Nat} (h : j ≤ k) : sumBelow j ≤ sumBelow k := by
  induction h with
  | refl => exact le_refl _
  | step _ ih => simp only [sumBelow]; omega

theorem sumBelow_million : sumBelow 1000000 = 499999500000 := by
  rw [sumBelow_eq_closedForm]; unfold closedForm; norm_num

/-! ## The loop in closed form -/

theorem entry_eq_tripState {v : Int} (h1 : LLONG_MIN ≤ v) (h2 : v ≤ LLONG_MAX) :
    entry v = tripState v 0 := by
  simp [entry, tripState, sumBelow, wrapLL_of_range h1 h2]

theorem loopBody_tripState (v : Int) (k : Nat) (hk : (k : Int) < INT_MAX) :
    loopBody (tripState v k) = tripState v (k + 1) := by
  have hi : wrapInt ((k : Int) + 1) = (k : Int) + 1 := by
    unfold INT_MAX at hk
    unfold wrapInt; omega
  simp only [loopBody, tripState, List.range_succ, List.map_append, List.map_cons, List.map_nil,
    sumBelow, wrapLL_add_left, hi]
  simp [add_assoc]

theorem loopStep_tripState (n : Nat) (hn : (n : Int) ≤ INT_MAX) (v : Int) (k : Nat) (hk : k < n) :
    loopStep n (tripState v k) = tripState v (k + 1) := by
  have h : (tripState v k).i < (n : Int) := by simp [tripState]; exact_mod_cast hk
  unfold loopStep
  rw [if_pos h]
  exact loopBody_tripState v k (by omega)

theorem stateAfter_tripState (n : Nat) (hn : (n : Int) ≤ INT_MAX) (v : Int) :
    ∀ k : Nat, k ≤ n → stateAfter n k (tripState v 0) = tripState v k := by
  intro k
  induction k with
  | zero => intro _; rfl
  | succ m ih =>
    intro hm
    unfold stateAfter at *
    rw [Function.iterate_succ_apply', ih (by omega)]
    exact loopStep_tripState n hn v m (by omega)

theorem forLoop_tripState (n : Nat) (hn : (n : Int) ≤ INT_MAX) (v : Int) :
    ∀ (d k extra : Nat), k + d = n →
      forLoop n (d + 1 + extra) (tripState v k) = some (tripState v n) := by
  intro d
  induction d with
  | zero =>
    intro k extra hk
    have hkn : k = n := by omega
    subst hkn
    have h : ¬ (tripState v k).i < (k : Int) := by simp [tripState]
    rw [show 0 + 1 + extra = extra + 1 by omega]
    simp only [forLoop]
    rw [if_neg h]
  | succ d ih =>
    intro k extra hk
    have h : (tripState v k).i < (n : Int) := by
      simp only [tripState]; exact_mod_cast (by omega : k < n)
    rw [show d + 1 + 1 + extra = (d + 1 + extra) + 1 by omega]
    simp only [forLoop]
    rw [if_pos h, loopBody_tripState v k (by omega)]
    exact ih (k + 1) extra (by omega)

theorem forLoop_tripState_none (n : Nat) (hn : (n : Int) ≤ INT_MAX) (v : Int) :
    ∀ (fuel k : Nat), k + fuel ≤ n → forLoop n fuel (tripState v k) = none := by
  intro fuel
  induction fuel with
  | zero => intro k _; rfl
  | succ f ih =>
    intro k hk
    have h : (tripState v k).i < (n : Int) := by
      simp only [tripState]; exact_mod_cast (by omega : k < n)
    simp only [forLoop]
    rw [if_pos h, loopBody_tripState v k (by omega)]
    exact ih (k + 1) (by omega)

/-- The run of `cpp_loop` from any `long long` value, with enough fuel. -/
theorem cpp_loop_run_eq {v : Int} (h1 : LLONG_MIN ≤ v) (h2 : v ≤ LLONG_MAX) {fuel : Nat}
    (hf : 1000000 < fuel) : cpp_loop_run fuel v = some (tripState v 1000000) := by
  unfold cpp_loop_run
  rw [entry_eq_tripState h1 h2]
  obtain ⟨extra, rfl⟩ : ∃ e, fuel = 1000000 + 1 + e := ⟨fuel - 1000001, by omega⟩
  have := forLoop_tripState 1000000 (by unfold INT_MAX; norm_num) v 1000000 0 extra (by norm_num)
  exact_mod_cast this

/-- The value `cpp_loop` leaves in the accumulator, with enough fuel. -/
theorem cpp_loop_eq_wrap {v : Int} (h1 : LLONG_MIN ≤ v) (h2 : v ≤ LLONG_MAX) {fuel : Nat}
    (hf : 1000000 < fuel) : cpp_loop fuel v = some (wrapLL (v + 499999500000)) := by
  unfold cpp_loop
  rw [cpp_loop_run_eq h1 h2 hf]
  simp [tripState, sumBelow_million]

theorem sumBelow_eq_sum (n : Nat) : sumBelow n = ∑ j in Finset.range n, (j : Int) := by
  induction n with
  | zero => simp [sumBelow]
  | succ m ih => rw [Finset.sum_range_succ, ← ih]; rfl

/-- The accumulator after `k` calls in sequence, with enough fuel for each call. -/
theorem cpp_loop_times_eq_wrap {v : Int} (h1 : LLONG_MIN ≤ v) (h2 : v ≤ LLONG_MAX) {fuel : Nat}
    (hf : 1000000 < fuel) (k : Nat) :
    cpp_loop_times fuel k v = some (wrapLL (v + (k : Int) * 499999500000)) := by
  induction k with
  | zero => simp [cpp_loop_times, wrapLL_of_range h1 h2]
  | succ m ih =>
    simp only [cpp_loop_times, ih, Option.some_bind]
    rw [cpp_loop_eq_wrap (wrapLL_range _).1 (wrapLL_range _).2 hf, wrapLL_add_left]
    congr 2
    push_cast
    ring

/-! ## C1 : one call adds 499999500000 to the incoming value -/

/-- C1 (as stated, refuted): the largest `long long` is a legal initial value, and
from it the call does not leave `V + 499999500000` in the accumulator (that
number is no `long long`); the second addition already leaves the 64-bit range
and the reduced result is `-9223371536855275809`. -/
theorem cpp_loop_additive_counterexample :
    LLONG_MIN ≤ LLONG_MAX ∧
    cpp_loop 1000001 LLONG_MAX = some (-9223371536855275809) ∧
    (∀ fuel : Nat, cpp_loop fuel LLONG_MAX ≠ some (LLONG_MAX + 499999500000)) := by
  have hr : LLONG_MIN ≤ LLONG_MAX := by unfold LLONG_MIN LLONG_MAX; norm_num
  refine ⟨hr, ?_, ?_⟩
  · rw [cpp_loop_eq_wrap hr (le_refl _) (by norm_num)]
    unfold wrapLL LLONG_MAX; norm_num
  · intro fuel
    rcases Nat.lt_or_ge 1000000 fuel with hf | hf
    · rw [cpp_loop_eq_wrap hr (le_refl _) hf]
      unfold wrapLL LLONG_MAX; norm_num
    · have hn := forLoop_tripState_none 1000000 (by unfold INT_MAX; norm_num) LLONG_MAX fuel 0
        (by omega)
      unfold cpp_loop cpp_loop_run
      rw [entry_eq_tripState hr (le_refl _)]
      have hn2 : forLoop 1000000 fuel (tripState LLONG_MAX 0) = none := by exact_mod_cast hn
      rw [hn2]
      simp

/-- C1 (amended): for every initial `long long` value `V` with
`V + 499999500000 ≤ 2^63 - 1`, one call of `cpp_loop` (given fuel for its
1000001 condition checks) returns with the accumulator equal to
`V + 499999500000`: the increment is added onto the incoming value. -/
theorem cpp_loop_additive (V : Int) (fuel : Nat) (hmin : LLONG_MIN ≤ V)
    (hmax : V + 499999500000 ≤ LLONG_MAX) (hf : 1000000 < fuel) :
    cpp_loop fuel V = some (V + 499999500000) := by
  have h2 : V ≤ LLONG_MAX := by omega
  rw [cpp_loop_eq_wrap hmin h2 hf, wrapLL_of_range (by omega) hmax]

theorem cpp_loop_additive_witness :
    LLONG_MIN ≤ 7 ∧ (7 : Int) + 499999500000 ≤ LLONG_MAX ∧ 1000000 < 1000001 ∧
    cpp_loop 1000001 7 = some (7 + 499999500000) :=
  ⟨by decide, by decide, by decide, cpp_loop_additive 7 1000001 (by decide) (by decide) (by decide)⟩

/-! ## C2 : a call started at 0 -/

/-- C2: when the accumulator is 0 before the call, `cpp_loop` (given fuel for
its 1000001 condition checks) returns with the accumulator equal to the sum of
all integers in `[0, 1000000)`, and that sum is 499999500000. -/
theorem cpp_loop_from_zero (fuel : Nat) (hf : 1000000 < fuel) :
    cpp_loop fuel 0 = some (∑ j in Finset.range 1000000, (j : Int)) ∧
    cpp_loop fuel 0 = some 499999500000 := by
  have h : cpp_loop fuel 0 = some 499999500000 := by
    rw [cpp_loop_eq_wrap (by decide) (by decide) hf]; decide
  refine ⟨?_, h⟩
  rw [h, ← sumBelow_eq_sum, sumBelow_million]

theorem cpp_loop_from_zero_witness :
    1000000 < 1000001 ∧
    cpp_loop 1000001 0 = some (∑ j in Finset.range 1000000, (j : Int)) ∧
    cpp_loop 1000001 0 = some 499999500000 :=
  ⟨by decide, cpp_loop_from_zero 1000001 (by decide)⟩

/-! ## C3 : repeated calls -/

/-- C3 (as stated, refuted): 18446763 calls in sequence from 0 do not leave
`18446763 * 499999500000` in the accumulator: that product exceeds `2^63 - 1`,
and the reduced accumulator is `-9223371797091051616`. -/
theorem cpp_loop_times_counterexample :
    cpp_loop_times 1000001 18446763 0 = some (-9223371797091051616) ∧
    cpp_loop_times 1000001 18446763 0 ≠ some (18446763 * 499999500000) ∧
    LLONG_MAX < 18446763 * 499999500000 := by
  have h := cpp_loop_times_eq_wrap (v := 0) (by decide) (by decide)
    (by norm_num : 1000000 < 1000001) 18446763
  rw [h]
  unfold wrapLL LLONG_MAX
  norm_num

/-- C3 (amended): for every natural number `k` with
`k * 499999500000 ≤ 2^63 - 1`, calling `cpp_loop` `k` times in sequence on an
accumulator that starts at 0 leaves it at `k * 499999500000`; two calls from 0
yield 999999000000, which differs from the result of one call, so `cpp_loop`
is not idempotent. -/
theorem cpp_loop_times_additive (k fuel : Nat) (hk : (k : Int) * 499999500000 ≤ LLONG_MAX)
    (hf : 1000000 < fuel) :
    cpp_loop_times fuel k 0 = some ((k : Int) * 499999500000) ∧
    cpp_loop_times fuel 2 0 = some 999999000000 ∧
    cpp_loop_times fuel 2 0 ≠ cpp_loop_times fuel 1 0 := by
  have h := fun j => cpp_loop_times_eq_wrap (v := 0) (by decide) (by decide) hf j
  refine ⟨?_, ?_, ?_⟩
  · rw [h k, zero_add, wrapLL_of_range _ hk]
    unfold LLONG_MIN; omega
  · rw [h 2]; decide
  · rw [h 2, h 1]; decide

theorem cpp_loop_times_additive_witness :
    ((3 : Nat) : Int) * 499999500000 ≤ LLONG_MAX ∧ 1000000 < 1000001 ∧
    cpp_loop_times 1000001 3 0 = some (((3 : Nat) : Int) * 499999500000) ∧
    cpp_loop_times 1000001 2 0 = some 999999000000 ∧
    cpp_loop_times 1000001 2 0 ≠ cpp_loop_times 1000001 1 0 :=
  ⟨by decide, by decide, cpp_loop_times_additive 3 1000001 (by decide) (by decide)⟩

/-! ## The log of additions -/

theorem addends_tripState (v : Int) (n : Nat) :
    addends (tripState v n) = (List.range n).map (fun j : Nat => (j : Int)) := by
  simp [addends, tripState, List.map_map, Function.comp_def]

theorem log_length_tripState (v : Int) (n : Nat) : (tripState v n).log.length = n := by
  simp [tripState]

theorem log_get_tripState (v : Int) {n j : Nat} (h : j < n) :
    (tripState v n).log[j]? = some ⟨wrapLL (v + sumBelow j), (j : Int)⟩ := by
  simp [tripState, List.getElem?_map, List.getElem?_range h]

theorem stateAfter_past_exit (n : Nat) (hn : (n : Int) ≤ INT_MAX) (v : Int) (m : Nat) :
    stateAfter n (n + m) (tripState v 0) = tripState v n := by
  induction m with
  | zero => exact stateAfter_tripState n hn v n (le_refl _)
  | succ m ih =>
    unfold stateAfter at *
    rw [← Nat.add_assoc, Function.iterate_succ_apply', ih]
    unfold loopStep
    rw [if_neg (by simp [tripState])]

theorem countRangeCast (n : Nat) (j : Int) :
    ((List.range n).map (fun m : Nat => (m : Int))).count j
      = if 0 ≤ j ∧ j < (n : Int) then 1 else 0 := by
  have hnd : ((List.range n).map (fun m : Nat => (m : Int))).Nodup :=
    List.Nodup.map (fun a b h => by exact_mod_cast h) (List.nodup_range n)
  have hmem : j ∈ (List.range n).map (fun m : Nat => (m : Int)) ↔ 0 ≤ j ∧ j < (n : Int) := by
    simp only [List.mem_map, List.mem_range]
    constructor
    · rintro ⟨m, hm, rfl⟩
      exact ⟨by omega, by exact_mod_cast hm⟩
    · rintro ⟨h0, h1⟩
      exact ⟨j.toNat, by omega, by omega⟩
  split
  · next h => exact List.count_eq_one_of_mem hnd (hmem.2 h)
  · next h => exact List.count_eq_zero_of_not_mem (fun hm => h (hmem.1 hm))

/-! ## C4 : the values added, in order -/

/-- C4: for every initial `long long` value, the run of `cpp_loop` ends, and
the values it added to the accumulator, in execution order, are exactly
`0, 1, ..., 999999`: the list is strictly ascending, starts at 0, ends at
999999, contains every index of `[0, 1000000)` exactly once and nothing else,
in particular never 1000000. -/
theorem cpp_loop_addends (V : Int) (fuel : Nat) (hmin : LLONG_MIN ≤ V) (hmax : V ≤ LLONG_MAX)
    (hf : 1000000 < fuel) :
    ∃ s, cpp_loop_run fuel V = some s ∧
      addends s = (List.range 1000000).map (fun j : Nat => (j : Int)) ∧
      List.Pairwise (fun a b => a < b) (addends s) ∧
      (addends s).head? = some 0 ∧
      (addends s).getLast? = some 999999 ∧
      (∀ j : Int, (addends s).count j = if 0 ≤ j ∧ j < 1000000 then 1 else 0) ∧
      (1000000 : Int) ∉ addends s := by
  refine ⟨tripState V 1000000, cpp_loop_run_eq hmin hmax hf, addends_tripState V _, ?_, ?_, ?_,
    ?_, ?_⟩
  · rw [addends_tripState, List.pairwise_map]
    exact (List.pairwise_lt_range _).imp (fun h => by exact_mod_cast h)
  · rw [addends_tripState]; simp [List.head?_range]
  · rw [addends_tripState]; simp [List.getLast?_range]
  · intro j
    rw [addends_tripState, countRangeCast]
    norm_num
  · rw [addends_tripState]
    simp only [List.mem_map, List.mem_range, not_exists, not_and]
    intro m hm h
    omega

theorem cpp_loop_addends_witness :
    LLONG_MIN ≤ 5 ∧ (5 : Int) ≤ LLONG_MAX ∧ 1000000 < 1000001 ∧
    ∃ s, cpp_loop_run 1000001 5 = some s ∧
      addends s = (List.range 1000000).map (fun j : Nat => (j : Int)) ∧
      List.Pairwise (fun a b => a < b) (addends s) ∧
      (addends s).head? = some 0 ∧
      (addends s).getLast? = some 999999 ∧
      (∀ j : Int, (addends s).count j = if 0 ≤ j ∧ j < 1000000 then 1 else 0) ∧
      (1000000 : Int) ∉ addends s :=
  ⟨by decide, by decide, by decide,
    cpp_loop_addends 5 1000001 (by decide) (by decide) (by decide)⟩

/-! ## C5 : termination after exactly 1000000 trips -/

/-- C5: for every initial `long long` value `cpp_loop` terminates: with fuel
for 1000001 evaluations of the loop condition the run ends, having executed
the body `sum += i` exactly 1000000 times and leaving `i = 1000000`; with less
fuel it has not ended; and the number of additions executed within the first
`k` trips is `min k 1000000`. -/
theorem cpp_loop_terminates (V : Int) (hmin : LLONG_MIN ≤ V) (hmax : V ≤ LLONG_MAX) :
    (∀ fuel : Nat, 1000000 < fuel →
      ∃ s, cpp_loop_run fuel V = some s ∧ s.log.length = 1000000 ∧ s.i = 1000000) ∧
    (∀ fuel : Nat, fuel ≤ 1000000 → cpp_loop_run fuel V = none) ∧
    (∀ k : Nat, (stateAfter 1000000 k (entry V)).log.length = min k 1000000) := by
  have hb : ((1000000 : Nat) : Int) ≤ INT_MAX := by unfold INT_MAX; norm_num
  refine ⟨?_, ?_, ?_⟩
  · intro fuel hf
    exact ⟨tripState V 1000000, cpp_loop_run_eq hmin hmax hf, log_length_tripState V _, rfl⟩
  · intro fuel hf
    have hn := forLoop_tripState_none 1000000 hb V fuel 0 (by omega)
    unfold cpp_loop_run
    rw [entry_eq_tripState hmin hmax]
    exact_mod_cast hn
  · intro k
    rw [entry_eq_tripState hmin hmax]
    rcases Nat.le_total k 1000000 with hk | hk
    · have h := stateAfter_tripState 1000000 hb V k hk
      have h2 : stateAfter 1000000 k (tripState V 0) = tripState V k := by exact_mod_cast h
      rw [h2, log_length_tripState, Nat.min_eq_left hk]
    · obtain ⟨m, rfl⟩ : ∃ m, k = 1000000 + m := ⟨k - 1000000, by omega⟩
      have h := stateAfter_past_exit 1000000 hb V m
      have h2 : stateAfter 1000000 (1000000 + m) (tripState V 0) = tripState V 1000000 := by
        exact_mod_cast h
      rw [h2, log_length_tripState, Nat.min_eq_right hk]

theorem cpp_loop_terminates_witness :
    LLONG_MIN ≤ -3 ∧ (-3 : Int) ≤ LLONG_MAX ∧
    (∀ fuel : Nat, 1000000 < fuel →
      ∃ s, cpp_loop_run fuel (-3) = some s ∧ s.log.length = 1000000 ∧ s.i = 1000000) ∧
    (∀ fuel : Nat, fuel ≤ 1000000 → cpp_loop_run fuel (-3) = none) ∧
    (∀ k : Nat, (stateAfter 1000000 k (entry (-3))).log.length = min k 1000000) :=
  ⟨by decide, by decide, cpp_loop_terminates (-3) (by decide) (by decide)⟩

/-! ## Exact results of the logged additions -/

theorem log_mem_iff (v : Int) (n : Nat) (a : Addition) :
    a ∈ (tripState v n).log ↔ ∃ j : Nat, j < n ∧ a = ⟨wrapLL (v + sumBelow j), (j : Int)⟩ := by
  simp only [tripState, List.mem_map, List.mem_range]
  constructor
  · rintro ⟨j, hj, rfl⟩; exact ⟨j, hj, rfl⟩
  · rintro ⟨j, hj, rfl⟩; exact ⟨j, hj, rfl⟩

theorem sum_of_fits {v : Int} {k : Nat} (hmin : LLONG_MIN ≤ v)
    (hfit : v + sumBelow k ≤ LLONG_MAX) : wrapLL (v + sumBelow k) = v + sumBelow k :=
  wrapLL_of_range (by have := sumBelow_nonneg k; omega) hfit

/-- When the final exact sum fits, every logged addition read the exact running
sum and produced the next exact running sum, inside the 64-bit range. -/
theorem log_exact_of_fits {v : Int} {n : Nat} (hmin : LLONG_MIN ≤ v)
    (hfit : v + sumBelow n ≤ LLONG_MAX) {a : Addition} (h : a ∈ (tripState v n).log) :
    ∃ j : Nat, j < n ∧ a.acc = v + sumBelow j ∧ a.addend = j ∧
      a.exact = v + sumBelow (j + 1) ∧ LLONG_MIN ≤ a.exact ∧ a.exact ≤ LLONG_MAX := by
  obtain ⟨j, hj, rfl⟩ := (log_mem_iff v n a).1 h
  have hmono : sumBelow (j + 1) ≤ sumBelow n := sumBelow_mono hj
  have hj0 := sumBelow_nonneg j
  have hstep : sumBelow (j + 1) = sumBelow j + j := rfl
  have hacc : wrapLL (v + sumBelow j) = v + sumBelow j :=
    sum_of_fits hmin (by omega)
  refine ⟨j, hj, hacc, rfl, ?_, ?_, ?_⟩
  · simp only [Addition.exact, hacc, hstep]; ring
  · simp only [Addition.exact, hacc]; omega
  · simp only [Addition.exact, hacc]; omega

theorem overflows_eq_false {a : Addition} (h1 : LLONG_MIN ≤ a.exact) (h2 : a.exact ≤ LLONG_MAX) :
    a.overflows = false := by
  simp [Addition.overflows, Addition.overflowsUp, Addition.overflowsDown, h1, h2]

/-- When the final exact sum exceeds the range, some logged addition has an
exact result above the largest `long long`. -/
theorem exists_overflow_of_not_fits {v : Int} (hmin : LLONG_MIN ≤ v) (hmax : v ≤ LLONG_MAX) :
    ∀ n : Nat, LLONG_MAX < v + sumBelow n →
      ∃ a, a ∈ (tripState v n).log ∧ a.overflowsUp = true := by
  intro n
  induction n with
  | zero => intro h; simp only [sumBelow] at h; omega
  | succ m ih =>
    intro h
    by_cases hm : LLONG_MAX < v + sumBelow m
    · obtain ⟨a, ha, hov⟩ := ih hm
      obtain ⟨j, hj, rfl⟩ := (log_mem_iff v m a).1 ha
      exact ⟨_, (log_mem_iff v (m + 1) _).2 ⟨j, by omega, rfl⟩, hov⟩
    · have hacc : wrapLL (v + sumBelow m) = v + sumBelow m := sum_of_fits hmin (by omega)
      refine ⟨⟨wrapLL (v + sumBelow m), (m : Int)⟩, (log_mem_iff v (m + 1) _).2 ⟨m, by omega, rfl⟩, ?_⟩
      simp only [sumBelow] at h
      simp only [Addition.overflowsUp, Addition.exact, hacc, decide_eq_true_eq]
      omega

/-! ## C6 : no overflow on a call started at 0 -/

/-- C6: starting from an accumulator of 0, the run of `cpp_loop` ends after
1000000 additions, none of which overflows: the exact result of every addition
lies in `[-2^63, 2^63 - 1]`, and the accumulator after the first `k` additions
(`k ≤ 1000000`) is the exact sum of `[0, k)`, inside that range. -/
theorem cpp_loop_no_overflow_from_zero (fuel : Nat) (hf : 1000000 < fuel) :
    ∃ s, cpp_loop_run fuel 0 = some s ∧ s.log.length = 1000000 ∧
      (∀ a ∈ s.log, a.overflows = false ∧ LLONG_MIN ≤ a.exact ∧ a.exact ≤ LLONG_MAX) ∧
      (∀ k : Nat, k ≤ 1000000 →
        (stateAfter 1000000 k (entry 0)).sum = ∑ j in Finset.range k, (j : Int) ∧
        LLONG_MIN ≤ (stateAfter 1000000 k (entry 0)).sum ∧
        (stateAfter 1000000 k (entry 0)).sum ≤ LLONG_MAX) := by
  have h0 : LLONG_MIN ≤ (0 : Int) := by decide
  have h1 : (0 : Int) ≤ LLONG_MAX := by decide
  have hfit : (0 : Int) + sumBelow 1000000 ≤ LLONG_MAX := by rw [sumBelow_million]; decide
  refine ⟨tripState 0 1000000, cpp_loop_run_eq h0 h1 hf, log_length_tripState 0 _, ?_, ?_⟩
  · intro a ha
    obtain ⟨j, _, _, _, _, hlo, hhi⟩ := log_exact_of_fits h0 hfit ha
    exact ⟨overflows_eq_false hlo hhi, hlo, hhi⟩
  · intro k hk
    have hst := stateAfter_tripState 1000000 (by unfold INT_MAX; norm_num) 0 k hk
    have hst2 : stateAfter 1000000 k (entry 0) = tripState 0 k := by
      rw [entry_eq_tripState h0 h1]; exact_mod_cast hst
    have hmono : sumBelow k ≤ sumBelow 1000000 := sumBelow_mono hk
    have hval : (tripState 0 k).sum = sumBelow k := by
      have := sum_of_fits (v := 0) (k := k) h0 (by omega)
      simpa [tripState] using this
    have hk0 := sumBelow_nonneg k
    rw [hst2, hval, ← sumBelow_eq_sum]
    refine ⟨rfl, ?_, by omega⟩
    unfold LLONG_MIN; omega

theorem cpp_loop_no_overflow_from_zero_witness :
    1000000 < 1000001 ∧
    ∃ s, cpp_loop_run 1000001 0 = some s ∧ s.log.length = 1000000 ∧
      (∀ a ∈ s.log, a.overflows = false ∧ LLONG_MIN ≤ a.exact ∧ a.exact ≤ LLONG_MAX) ∧
      (∀ k : Nat, k ≤ 1000000 →
        (stateAfter 1000000 k (entry 0)).sum = ∑ j in Finset.range k, (j : Int) ∧
        LLONG_MIN ≤ (stateAfter 1000000 k (entry 0)).sum ∧
        (stateAfter 1000000 k (entry 0)).sum ≤ LLONG_MAX) :=
  ⟨by decide, cpp_loop_no_overflow_from_zero 1000001 (by decide)⟩

/-! ## C7 : start values whose final sum fits -/

/-- C7: for every initial `long long` value `V` with
`V + 499999500000 ≤ 2^63 - 1` (the smallest `long long` included), the run of
`cpp_loop` ends normally, no addition has an exact result outside
`[-2^63, 2^63 - 1]`, the accumulator after each of the first `k` additions is
the exact `V + (0 + ... + (k-1))` inside that range, and the final value is
exactly `V + 499999500000`. -/
theorem cpp_loop_safe (V : Int) (fuel : Nat) (hmin : LLONG_MIN ≤ V)
    (hfit : V + 499999500000 ≤ LLONG_MAX) (hf : 1000000 < fuel) :
    ∃ s, cpp_loop_run fuel V = some s ∧ s.log.length = 1000000 ∧
      (∀ a ∈ s.log, a.overflows = false ∧ LLONG_MIN ≤ a.exact ∧ a.exact ≤ LLONG_MAX) ∧
      (∀ k : Nat, k ≤ 1000000 →
        (stateAfter 1000000 k (entry V)).sum = V + ∑ j in Finset.range k, (j : Int) ∧
        LLONG_MIN ≤ (stateAfter 1000000 k (entry V)).sum ∧
        (stateAfter 1000000 k (entry V)).sum ≤ LLONG_MAX) ∧
      s.sum = V + 499999500000 ∧
      cpp_loop fuel V = some (V + 499999500000) := by
  have h1 : V ≤ LLONG_MAX := by omega
  have hfit2 : V + sumBelow 1000000 ≤ LLONG_MAX := by rw [sumBelow_million]; exact hfit
  have hrun := cpp_loop_run_eq hmin h1 hf
  have hfin : (tripState V 1000000).sum = V + 499999500000 := by
    have := sum_of_fits hmin hfit2
    rw [sumBelow_million] at this
    simpa [tripState, sumBelow_million] using this
  refine ⟨tripState V 1000000, hrun, log_length_tripState V _, ?_, ?_, hfin, ?_⟩
  · intro a ha
    obtain ⟨j, _, _, _, _, hlo, hhi⟩ := log_exact_of_fits hmin hfit2 ha
    exact ⟨overflows_eq_false hlo hhi, hlo, hhi⟩
  · intro k hk
    have hst := stateAfter_tripState 1000000 (by unfold INT_MAX; norm_num) V k hk
    have hst2 : stateAfter 1000000 k (entry V) = tripState V k := by
      rw [entry_eq_tripState hmin h1]; exact_mod_cast hst
    have hmono : sumBelow k ≤ sumBelow 1000000 := sumBelow_mono hk
    have hval : (tripState V k).sum = V + sumBelow k := by
      have := sum_of_fits (v := V) (k := k) hmin (by omega)
      simpa [tripState] using this
    have hk0 := sumBelow_nonneg k
    rw [hst2, hval, ← sumBelow_eq_sum]
    exact ⟨rfl, by omega, by omega⟩
  · unfold cpp_loop
    rw [hrun, Option.map_some', hfin]

theorem cpp_loop_safe_witness :
    LLONG_MIN ≤ LLONG_MIN ∧ LLONG_MIN + 499999500000 ≤ LLONG_MAX ∧ 1000000 < 1000001 ∧
    ∃ s, cpp_loop_run 1000001 LLONG_MIN = some s ∧ s.log.length = 1000000 ∧
      (∀ a ∈ s.log, a.overflows = false ∧ LLONG_MIN ≤ a.exact ∧ a.exact ≤ LLONG_MAX) ∧
      (∀ k : Nat, k ≤ 1000000 →
        (stateAfter 1000000 k (entry LLONG_MIN)).sum
          = LLONG_MIN + ∑ j in Finset.range k, (j : Int) ∧
        LLONG_MIN ≤ (stateAfter 1000000 k (entry LLONG_MIN)).sum ∧
        (stateAfter 1000000 k (entry LLONG_MIN)).sum ≤ LLONG_MAX) ∧
      s.sum = LLONG_MIN + 499999500000 ∧
      cpp_loop 1000001 LLONG_MIN = some (LLONG_MIN + 499999500000) :=
  ⟨by decide, by decide, by decide,
    cpp_loop_safe LLONG_MIN 1000001 (by decide) (by decide) (by decide)⟩

/-! ## C8 : the loop against the closed form -/

/-- C8 (as stated, refuted): from the largest `long long`, the accumulator after
the first 2 trips is not `V + 2*(2-1)/2 = V + 1` (no `long long` has that
value); the reduced accumulator is the smallest `long long`. -/
theorem loop_closedForm_counterexample :
    LLONG_MIN ≤ LLONG_MAX ∧
    (stateAfter 1000000 2 (entry LLONG_MAX)).sum = LLONG_MIN ∧
    (stateAfter 1000000 2 (entry LLONG_MAX)).sum ≠ LLONG_MAX + closedForm 2 := by
  decide

/-- C8 (amended): for every initial `long long` value `V` and every `k` with
`0 ≤ k ≤ 1000000` and `V + k(k-1)/2 ≤ 2^63 - 1`, the accumulator after the
first `k` trips of the loop equals `V + k(k-1)/2`; the same loop with an `int`
upper bound `n` (`0 ≤ n ≤ 2^31 - 1`, `V + n(n-1)/2 ≤ 2^63 - 1`) ends with the
accumulator equal to `V + n(n-1)/2`; and at `k = 1000000` the closed form is
499999500000. -/
theorem loop_closedForm (V : Int) (k n fuel : Nat) (hmin : LLONG_MIN ≤ V)
    (hk : k ≤ 1000000) (hVk : V + closedForm k ≤ LLONG_MAX)
    (hn : (n : Int) ≤ INT_MAX) (hVn : V + closedForm n ≤ LLONG_MAX) (hf : n < fuel) :
    (stateAfter 1000000 k (entry V)).sum = V + closedForm k ∧
    (forLoop n fuel (entry V)).map LoopState.sum = some (V + closedForm n) ∧
    closedForm 1000000 = 499999500000 := by
  rw [← sumBelow_eq_closedForm] at hVk hVn
  have hk0 := sumBelow_nonneg k
  have h1 : V ≤ LLONG_MAX := by omega
  refine ⟨?_, ?_, ?_⟩
  · have hst := stateAfter_tripState 1000000 (by unfold INT_MAX; norm_num) V k hk
    have hst2 : stateAfter 1000000 k (entry V) = tripState V k := by
      rw [entry_eq_tripState hmin h1]; exact_mod_cast hst
    rw [hst2, ← sumBelow_eq_closedForm]
    exact sum_of_fits hmin hVk
  · obtain ⟨extra, rfl⟩ : ∃ e, fuel = n + 1 + e := ⟨fuel - (n + 1), by omega⟩
    rw [entry_eq_tripState hmin h1, forLoop_tripState n hn V n 0 extra (by omega),
      Option.map_some', ← sumBelow_eq_closedForm]
    exact congrArg some (sum_of_fits hmin hVn)
  · unfold closedForm; norm_num

theorem loop_closedForm_witness :
    LLONG_MIN ≤ 10 ∧ 3 ≤ 1000000 ∧ (10 : Int) + closedForm ((3 : Nat) : Int) ≤ LLONG_MAX ∧
    (((4 : Nat) : Int)) ≤ INT_MAX ∧ (10 : Int) + closedForm ((4 : Nat) : Int) ≤ LLONG_MAX ∧
    4 < 5 ∧
    (stateAfter 1000000 3 (entry 10)).sum = 10 + closedForm ((3 : Nat) : Int) ∧
    (forLoop ((4 : Nat) : Int) 5 (entry 10)).map LoopState.sum
      = some (10 + closedForm ((4 : Nat) : Int)) ∧
    closedForm 1000000 = 499999500000 :=
  ⟨by decide, by decide, by decide, by decide, by decide, by decide,
    loop_closedForm 10 3 4 5 (by decide) (by decide) (by decide) (by decide) (by decide)
      (by decide)⟩

/-! ## C9 : width needed for the increment -/

/-- C9: the value a call started at 0 leaves in the accumulator is the sum of
`0..999999 = 499999500000`; it is strictly greater than the largest 32-bit
signed value and at most the largest 64-bit signed value, so it is not a
32-bit signed value (reducing it to 32 bits changes it) while it is a 64-bit
signed value (reducing it to 64 bits leaves it unchanged). -/
theorem increment_width (fuel : Nat) (hf : 1000000 < fuel) :
    ∃ r, cpp_loop fuel 0 = some r ∧ r = sumBelow 1000000 ∧ r = 499999500000 ∧
      INT_MAX < r ∧ r ≤ LLONG_MAX ∧
      ¬ (INT_MIN ≤ r ∧ r ≤ INT_MAX) ∧ wrapInt r ≠ r ∧
      (LLONG_MIN ≤ r ∧ r ≤ LLONG_MAX) ∧ wrapLL r = r := by
  refine ⟨499999500000, ?_, sumBelow_million.symm, rfl, by decide, by decide, by decide,
    by decide, by decide, by decide⟩
  rw [cpp_loop_eq_wrap (by decide) (by decide) hf]; decide

theorem increment_width_witness :
    1000000 < 1000001 ∧
    ∃ r, cpp_loop 1000001 0 = some r ∧ r = sumBelow 1000000 ∧ r = 499999500000 ∧
      INT_MAX < r ∧ r ≤ LLONG_MAX ∧
      ¬ (INT_MIN ≤ r ∧ r ≤ INT_MAX) ∧ wrapInt r ≠ r ∧
      (LLONG_MIN ≤ r ∧ r ≤ LLONG_MAX) ∧ wrapLL r = r :=
  ⟨by decide, increment_width 1000001 (by decide)⟩

/-! ## C10 : exactly when an addition overflows -/

/-- C10: for every initial `long long` value `V`, some addition of the run has
an exact result outside `[-2^63, 2^63 - 1]` if and only if
`V > 2^63 - 1 - 499999500000`; every addition adds a non-negative value, so its
exact result is at least the accumulator it read and never below `-2^63` (the
range can only be exceeded upwards); and from `V = 2^63 - 1` the addition of
index 0 stays in range while the addition of index 1 exceeds it. -/
theorem cpp_loop_overflow_iff (V : Int) (fuel : Nat) (hmin : LLONG_MIN ≤ V)
    (hmax : V ≤ LLONG_MAX) (hf : 1000000 < fuel) :
    ∃ s, cpp_loop_run fuel V = some s ∧
      ((∃ a, a ∈ s.log ∧ a.overflows = true) ↔ LLONG_MAX - 499999500000 < V) ∧
      (∀ a ∈ s.log, 0 ≤ a.addend ∧ a.acc ≤ a.exact ∧ a.overflowsDown = false) ∧
      (∃ t, cpp_loop_run fuel LLONG_MAX = some t ∧
        t.log[0]? = some ⟨LLONG_MAX, 0⟩ ∧ Addition.overflows ⟨LLONG_MAX, 0⟩ = false ∧
        t.log[1]? = some ⟨LLONG_MAX, 1⟩ ∧ Addition.overflowsUp ⟨LLONG_MAX, 1⟩ = true) := by
  have hr : LLONG_MIN ≤ LLONG_MAX := by decide
  refine ⟨tripState V 1000000, cpp_loop_run_eq hmin hmax hf, ?_, ?_, ?_⟩
  · constructor
    · rintro ⟨a, ha, hov⟩
      by_contra hV
      have hfit : V + sumBelow 1000000 ≤ LLONG_MAX := by rw [sumBelow_million]; omega
      obtain ⟨j, _, _, _, _, hlo, hhi⟩ := log_exact_of_fits hmin hfit ha
      rw [overflows_eq_false hlo hhi] at hov
      exact Bool.false_ne_true hov
    · intro hV
      obtain ⟨a, ha, hov⟩ := exists_overflow_of_not_fits hmin hmax 1000000
        (by rw [sumBelow_million]; omega)
      exact ⟨a, ha, by simp [Addition.overflows, hov]⟩
  · intro a ha
    obtain ⟨j, _, rfl⟩ := (log_mem_iff V 1000000 a).1 ha
    have hw := (wrapLL_range (V + sumBelow j)).1
    refine ⟨by simp, by simp [Addition.exact], ?_⟩
    simp only [Addition.overflowsDown, Addition.exact, decide_eq_false_iff_not, not_lt]
    omega
  · refine ⟨tripState LLONG_MAX 1000000, cpp_loop_run_eq hr (le_refl _) hf, ?_, by decide, ?_,
      by decide⟩
    · rw [log_get_tripState LLONG_MAX (by norm_num : 0 < 1000000)]; decide
    · rw [log_get_tripState LLONG_MAX (by norm_num : 1 < 1000000)]; decide

theorem cpp_loop_overflow_iff_witness :
    LLONG_MIN ≤ 42 ∧ (42 : Int) ≤ LLONG_MAX ∧ 1000000 < 1000001 ∧
    ∃ s, cpp_loop_run 1000001 42 = some s ∧
      ((∃ a, a ∈ s.log ∧ a.overflows = true) ↔ LLONG_MAX - 499999500000 < 42) ∧
      (∀ a ∈ s.log, 0 ≤ a.addend ∧ a.acc ≤ a.exact ∧ a.overflowsDown = false) ∧
      (∃ t, cpp_loop_run 1000001 LLONG_MAX = some t ∧
        t.log[0]? = some ⟨LLONG_MAX, 0⟩ ∧ Addition.overflows ⟨LLONG_MAX, 0⟩ = false ∧
        t.log[1]? = some ⟨LLONG_MAX, 1⟩ ∧ Addition.overflowsUp ⟨LLONG_MAX, 1⟩ = true) :=
  ⟨by decide, by decide, by decide,
    cpp_loop_overflow_iff 42 1000001 (by decide) (by decide) (by decide)⟩

/-! ## C11 : the result under wrapping addition -/

/-- C11: with every 64-bit addition reduced modulo `2^64` (two's complement),
for every initial `long long` value `V`, whether or not some intermediate sum
leaves the range, the run of `cpp_loop` ends and the accumulator is the signed
64-bit representative of `(V + 499999500000) mod 2^64`: it lies in
`[-2^63, 2^63 - 1]`, is congruent to `V + 499999500000` modulo `2^64`, and is
`V + 499999500000` itself when that fits and `V + 499999500000 - 2^64`
otherwise. -/
theorem cpp_loop_wrapping (V : Int) (fuel : Nat) (hmin : LLONG_MIN ≤ V) (hmax : V ≤ LLONG_MAX)
    (hf : 1000000 < fuel) :
    ∃ r, cpp_loop fuel V = some r ∧
      LLONG_MIN ≤ r ∧ r ≤ LLONG_MAX ∧
      r % 18446744073709551616 = (V + 499999500000) % 18446744073709551616 ∧
      r = wrapLL (V + 499999500000) ∧
      r = (if V + 499999500000 ≤ LLONG_MAX then V + 499999500000
            else V + 499999500000 - 18446744073709551616) := by
  refine ⟨wrapLL (V + 499999500000), cpp_loop_eq_wrap hmin hmax hf,
    (wrapLL_range _).1, (wrapLL_range _).2, ?_, rfl, ?_⟩
  · unfold wrapLL; omega
  · unfold LLONG_MIN at hmin
    unfold LLONG_MAX at hmax
    unfold wrapLL LLONG_MAX
    split <;> omega

theorem cpp_loop_wrapping_witness :
    LLONG_MIN ≤ LLONG_MAX ∧ LLONG_MAX ≤ LLONG_MAX ∧ 1000000 < 1000001 ∧
    ∃ r, cpp_loop 1000001 LLONG_MAX = some r ∧
      LLONG_MIN ≤ r ∧ r ≤ LLONG_MAX ∧
      r % 18446744073709551616 = (LLONG_MAX + 499999500000) % 18446744073709551616 ∧
      r = wrapLL (LLONG_MAX + 499999500000) ∧
      r = (if LLONG_MAX + 499999500000 ≤ LLONG_MAX then LLONG_MAX + 499999500000
            else LLONG_MAX + 499999500000 - 18446744073709551616) :=
  ⟨by decide, by decide, by decide,
    cpp_loop_wrapping LLONG_MAX 1000001 (by decide) (by decide) (by decide)⟩

/-! ## C12 : the loop counter -/

/-- The state after any number of trips is the closed-form state of the trips
actually taken. -/
theorem stateAfter_eq_min (n : Nat) (hn : (n : Int) ≤ INT_MAX) (v : Int) (k : Nat) :
    stateAfter n k (tripState v 0) = tripState v (min k n) := by
  rcases Nat.le_total k n with hk | hk
  · rw [Nat.min_eq_left hk]; exact stateAfter_tripState n hn v k hk
  · obtain ⟨m, rfl⟩ : ∃ m, k = n + m := ⟨k - n, by omega⟩
    rw [Nat.min_eq_right hk]; exact stateAfter_past_exit n hn v m

/-- C12: for every initial `long long` value, after any number `k` of trips of
the loop the counter satisfies `0 ≤ i ≤ 1000000` (it is `min k 1000000`, so it
is 1000000 after the final increment and stays so); whenever the loop
condition holds, the exact value `i + 1` of the increment lies in the 32-bit
signed range, so `++i` stores `i + 1` unchanged; the finished run leaves
`i = 1000000`; and every value added to the accumulator is non-negative. -/
theorem counter_in_range (V : Int) (fuel : Nat) (hmin : LLONG_MIN ≤ V) (hmax : V ≤ LLONG_MAX)
    (hf : 1000000 < fuel) :
    (∀ k : Nat,
      0 ≤ (stateAfter 1000000 k (entry V)).i ∧
      (stateAfter 1000000 k (entry V)).i ≤ 1000000 ∧
      (stateAfter 1000000 k (entry V)).i = ((min k 1000000 : Nat) : Int) ∧
      ((stateAfter 1000000 k (entry V)).i < 1000000 →
        INT_MIN ≤ (stateAfter 1000000 k (entry V)).i + 1 ∧
        (stateAfter 1000000 k (entry V)).i + 1 ≤ INT_MAX ∧
        (stateAfter 1000000 (k + 1) (entry V)).i = (stateAfter 1000000 k (entry V)).i + 1) ∧
      (∀ a ∈ (stateAfter 1000000 k (entry V)).log, 0 ≤ a.addend)) ∧
    (∃ s, cpp_loop_run fuel V = some s ∧ s.i = 1000000 ∧ INT_MIN ≤ s.i ∧ s.i ≤ INT_MAX ∧
      ∀ a ∈ s.log, 0 ≤ a.addend) := by
  have hb : ((1000000 : Nat) : Int) ≤ INT_MAX := by unfold INT_MAX; norm_num
  have hst : ∀ k : Nat, stateAfter 1000000 k (entry V) = tripState V (min k 1000000) := by
    intro k
    rw [entry_eq_tripState hmin hmax]
    exact_mod_cast stateAfter_eq_min 1000000 hb V k
  have hlog : ∀ (n : Nat) (a : Addition), a ∈ (tripState V n).log → 0 ≤ a.addend := by
    intro n a ha
    obtain ⟨j, _, rfl⟩ := (log_mem_iff V n a).1 ha
    simp
  have hlo : INT_MIN ≤ (tripState V 1000000).i := by
    show INT_MIN ≤ ((1000000 : Nat) : Int)
    decide
  refine ⟨?_, tripState V 1000000, cpp_loop_run_eq hmin hmax hf, rfl, hlo, hb, hlog 1000000⟩
  intro k
  rw [hst k, hst (k + 1)]
  have hi : ∀ m : Nat, (tripState V m).i = (m : Int) := fun _ => rfl
  rw [hi, hi]
  have hm : min k 1000000 ≤ 1000000 := Nat.min_le_right _ _
  refine ⟨by omega, by omega, rfl, ?_, hlog _⟩
  intro hlt
  have hk : k < 1000000 := by
    rcases Nat.lt_or_ge k 1000000 with h | h
    · exact h
    · rw [Nat.min_eq_right h] at hlt; omega
  rw [Nat.min_eq_left (by omega : k ≤ 1000000),
    Nat.min_eq_left (by omega : k + 1 ≤ 1000000)]
  unfold INT_MIN INT_MAX
  refine ⟨by omega, by omega, by push_cast; rfl⟩

theorem counter_in_range_witness :
    LLONG_MIN ≤ 0 ∧ (0 : Int) ≤ LLONG_MAX ∧ 1000000 < 1000001 ∧
    (∀ k : Nat,
      0 ≤ (stateAfter 1000000 k (entry 0)).i ∧
      (stateAfter 1000000 k (entry 0)).i ≤ 1000000 ∧
      (stateAfter 1000000 k (entry 0)).i = ((min k 1000000 : Nat) : Int) ∧
      ((stateAfter 1000000 k (entry 0)).i < 1000000 →
        INT_MIN ≤ (stateAfter 1000000 k (entry 0)).i + 1 ∧
        (stateAfter 1000000 k (entry 0)).i + 1 ≤ INT_MAX ∧
        (stateAfter 1000000 (k + 1) (entry 0)).i = (stateAfter 1000000 k (entry 0)).i + 1) ∧
      (∀ a ∈ (stateAfter 1000000 k (entry 0)).log, 0 ≤ a.addend)) ∧
    (∃ s, cpp_loop_run 1000001 0 = some s ∧ s.i = 1000000 ∧ INT_MIN ≤ s.i ∧ s.i ≤ INT_MAX ∧
      ∀ a ∈ s.log, 0 ≤ a.addend) :=
  ⟨by decide, by decide, by decide,
    counter_in_range 0 1000001 (by decide) (by decide) (by decide)⟩

end Presentation
